import Mathlib

/-!
Verification of the gait-analysis pipeline of the cobra-knee repository.

The Python sources are shallowly embedded as Lean functions over `List ℚ`
(signals are 1-D numpy arrays of floats, modelled with exact rationals;
`np.std` takes a real square root, modelled with `Real.sqrt`).
Fallible numpy operations (indexing an empty array, `np.interp` with an
empty sample-point array, `list.pop` on an empty list) are modelled with
`Option`, where `none` corresponds to a raised exception.

Embedded functions, with their sources:
* `src/gait_cycles.py`: `get_stride_list`, `trial_strides`,
  `normalize_trial_strides` (per-stride body: `normalize_stride`).
* `src/averages.py`: `trial_average_strides` (per-signal body:
  `meanTrajectory` / `sdTrajectory`), `mean_signal`, `merge_trials`.
* `src/results.py`: `compute_peak_torque_across_conditions`,
  `compute_maximum_torque_all_trials`, and the cable-force conversion from
  `compute_outcomes`.
* `src/treadmill.py`: `zero_grf`.
-/

/-- `np.linspace a b n`: `n` evenly spaced points from `a` to `b` inclusive.
For `n = 1` numpy returns `[a]`, which the formula also yields because
division by zero is zero in `ℚ`. -/
def linspace (a b : ℚ) (n : ℕ) : List ℚ :=
  (List.range n).map (fun (j : ℕ) => a + (b - a) * (j : ℚ) / ((n : ℚ) - 1))

/-- Core recursion of `np.interp` over the (sample point, value) pairs.
`p` is the current left node; the list holds the remaining nodes.
Given strictly increasing sample points this computes the piecewise-linear
interpolant clamped to the end values, exactly numpy's semantics. -/
def interpGo (p : ℚ × ℚ) : List (ℚ × ℚ) → ℚ → ℚ
  | [], _ => p.2
  | q :: rest, x =>
    if x ≤ p.1 then p.2
    else if x ≤ q.1 then p.2 + (q.2 - p.2) * (x - p.1) / (q.1 - p.1)
    else interpGo q rest x

/-- `np.interp` on a zipped list of (sample point, value) nodes. The empty
case is never reached from `normalize_stride`, which guards emptiness. -/
def interpPairs : List (ℚ × ℚ) → ℚ → ℚ
  | [], _ => 0
  | p :: tl, x => interpGo p tl x

/-- `np.interp x xp fp` for increasing `xp`. -/
def npInterp (x : ℚ) (xp fp : List ℚ) : ℚ :=
  interpPairs (xp.zip fp) x

/-- Loop body of `normalize_trial_strides` (gait_cycles.py lines 174-192):
resample one variable-length stride onto the uniform 500-point 0-100% grid
by linear interpolation against a uniform grid of the stride's own length.
`np.interp` raises on an empty sample-point array, hence `none` for an
empty stride. -/
def normalize_stride (stride : List ℚ) : Option (List ℚ) :=
  if stride.isEmpty then none
  else some ((linspace 0 100 500).map
    (fun x => npInterp x (linspace 0 100 stride.length) stride))

/-- Normalize every stride of one signal (inner loop of
`normalize_trial_strides`). -/
def normalize_stride_list : List (List ℚ) → Option (List (List ℚ))
  | [] => some []
  | s :: rest =>
    match normalize_stride s, normalize_stride_list rest with
    | some ns, some nrest => some (ns :: nrest)
    | _, _ => none

/-- `normalize_trial_strides` (gait_cycles.py): a trial is a list of
(signal name, list of variable-length strides); every stride of every
signal is resampled to length 500. The numpy column matrix is modelled as
the list of its columns. -/
def normalize_trial_strides : List (String × List (List ℚ)) →
    Option (List (String × List (List ℚ)))
  | [] => some []
  | (n, ss) :: rest =>
    match normalize_stride_list ss, normalize_trial_strides rest with
    | some nss, some nrest => some ((n, nss) :: nrest)
    | _, _ => none

/-- `np.where(phase == 0)[0]`: ascending indices of the zero samples. -/
def heel_strike_candidates (phase : List ℚ) : List ℕ :=
  (List.range phase.length).filter (fun i => decide (phase.getD i 1 = 0))

/-- Heel-strike detection of `trial_strides` (gait_cycles.py lines
115-122): the zeros of the phase signal, with a detected event on the very
last sample dropped.  `heel_strike_indices[-1]` raises `IndexError` when no
zero exists, modelled by `none`. -/
def heel_strike_indices (phase : List ℚ) : Option (List ℕ) :=
  let idx := heel_strike_candidates phase
  match idx.getLast? with
  | none => none
  | some lastIdx => some (if lastIdx = phase.length - 1 then idx.dropLast else idx)

/-- Python slice `signal[a:b]` for natural `a`, `b`. -/
def pySlice (l : List ℚ) (a b : ℕ) : List ℚ :=
  (l.drop a).take (b - a)

/-- Loop of `get_stride_list`: starting from `old = 0`, emit
`signal[old:index]` for each heel-strike index. -/
def chopSegments (signal : List ℚ) : ℕ → List ℕ → List (List ℚ)
  | _, [] => []
  | old, i :: rest => pySlice signal old i :: chopSegments signal i rest

/-- `get_stride_list` (gait_cycles.py lines 40-86): chop the signal at the
heel-strike indices and discard the first segment (`strides_list.pop(0)`
raises `IndexError` on an empty list, modelled by `none`). -/
def get_stride_list (signal : List ℚ) (heelStrikes : List ℕ) :
    Option (List (List ℚ)) :=
  match chopSegments signal 0 heelStrikes with
  | [] => none
  | _ :: rest => some rest

/-- Per-signal loop of `trial_strides`. -/
def trial_strides_signals (heelStrikes : List ℕ) :
    List (String × List ℚ) → Option (List (String × List (List ℚ)))
  | [] => some []
  | (n, s) :: rest =>
    match get_stride_list s heelStrikes, trial_strides_signals heelStrikes rest with
    | some strides, some srest => some ((n, strides) :: srest)
    | _, _ => none

/-- `trial_strides` (gait_cycles.py lines 90-134): detect heel strikes from
the phase signal, then chop every signal of the trial. -/
def trial_strides (phase : List ℚ) (trial : List (String × List ℚ)) :
    Option (List (String × List (List ℚ))) :=
  match heel_strike_indices phase with
  | none => none
  | some hs => trial_strides_signals hs trial

/-- `np.mean` of a 1-D array (division by zero yields zero for the empty
array; numpy would return NaN, a case excluded by every use below). -/
def npMean (l : List ℚ) : ℚ := l.sum / (l.length : ℚ)

/-- Row `i` of the 500×N stride matrix whose columns are the strides:
the i-th sample of every stride. -/
def strideRow (cols : List (List ℚ)) (i : ℕ) : List ℚ :=
  cols.map (fun c => c.getD i 0)

/-- Number of rows of the stride matrix (all columns have equal length). -/
def numRows (cols : List (List ℚ)) : ℕ := (cols.headD []).length

/-- `np.mean(strides_array, axis=1)` in `trial_average_strides`
(averages.py line 64). -/
def meanTrajectory (cols : List (List ℚ)) : List ℚ :=
  (List.range (numRows cols)).map (fun i => npMean (strideRow cols i))

/-- The square of `np.std(strides_array, axis=1)` (averages.py line 65):
the population variance, divisor N. -/
def varTrajectory (cols : List (List ℚ)) : List ℚ :=
  (List.range (numRows cols)).map (fun i =>
    npMean ((strideRow cols i).map (fun x => (x - npMean (strideRow cols i)) ^ 2)))

/-- `np.std(strides_array, axis=1)` (averages.py line 65): the population
standard deviation, the real square root of the population variance. -/
noncomputable def sdTrajectory (cols : List (List ℚ)) : List ℝ :=
  (varTrajectory cols).map (fun (v : ℚ) => Real.sqrt (v : ℝ))

/-- `trial_average_strides` (averages.py lines 28-75): per signal, the pair
of the mean trajectory and the SD trajectory across the stride columns. -/
noncomputable def trial_average_strides (trial : List (String × List (List ℚ))) :
    List (String × (List ℚ × List ℝ)) :=
  trial.map (fun p => (p.1, (meanTrajectory p.2, sdTrajectory p.2)))

/-- Mean and SD trajectories of one signal of a trial average. -/
structure SigAvg where
  mean : List ℚ
  sd : List ℚ
deriving DecidableEq, Repr

/-- `mean_signal` (averages.py lines 129-130): elementwise average of two
equal-length trajectories. -/
def mean_signal (s0 s1 : List ℚ) : List ℚ :=
  List.zipWith (fun x y => (x + y) / 2) s0 s1

/-- `merge_trials` (averages.py lines 134-176): iterate the signals of
trial 0 in order, look each signal name up in trial 1 (a missing key raises
`KeyError`, modelled by `none`), and average the means and the SDs. -/
def merge_trials : List (String × SigAvg) → List (String × SigAvg) →
    Option (List (String × SigAvg))
  | [], _ => some []
  | p :: rest, t1 =>
    match List.lookup p.1 t1, merge_trials rest t1 with
    | some a1, some m =>
      some ((p.1, ⟨mean_signal p.2.mean a1.mean, mean_signal p.2.sd a1.sd⟩) :: m)
    | _, _ => none

/-- `np.max` of a 1-D array (`none` models the exception on an empty
array). -/
def npMaxQ : List ℚ → Option ℚ
  | [] => none
  | x :: xs => some (xs.foldl max x)

/-- `np.min` of a 1-D array (`none` models the exception on an empty
array). -/
def npMinQ : List ℚ → Option ℚ
  | [] => none
  | x :: xs => some (xs.foldl min x)

/-- Boolean-mask indexing `xs[grid < c]` for equal-length arrays. -/
def maskBelow (grid xs : List ℚ) (c : ℚ) : List ℚ :=
  (grid.zip xs).filterMap (fun p => if p.1 < c then some p.2 else none)

/-- `np.where(l == v)[0][0]`: position of the first element equal to `v`. -/
def firstIdxEq (l : List ℚ) (v : ℚ) : ℕ :=
  l.findIdx (fun x => decide (x = v))

/-- Mean and SD trajectory of the joint-torque signal of one condition
average. -/
structure ConditionAvg where
  torqueMean : List ℚ
  torqueSd : List ℚ
deriving DecidableEq, Repr

/-- The condition averages consumed by
`compute_peak_torque_across_conditions`, together with the transparent
GRFz mean trajectory whose length sets the `percent_gait` grid. -/
structure ConditionsAvg where
  grfzMeanTrans : List ℚ
  trans : ConditionAvg
  low : ConditionAvg
  med : ConditionAvg
  high : ConditionAvg

/-- Per-condition body of `compute_peak_torque_across_conditions`
(results.py lines 61-66, the transparent/med/high variant): restrict the
mean and the SD to the grid points with `percent_gait < 70`, take the peak
of the restricted mean, and read the restricted SD at the first index
attaining the peak. -/
def peakStancePair (grid : List ℚ) (c : ConditionAvg) : Option (ℚ × ℚ) :=
  let m := maskBelow grid c.torqueMean 70
  let s := maskBelow grid c.torqueSd 70
  match npMaxQ m with
  | none => none
  | some pk => (s.get? (firstIdxEq m pk)).map (fun sv => (pk, sv))

/-- The `low` branch of `compute_peak_torque_across_conditions` (results.py
lines 68-73): the restricted SD is accidentally assigned to `trans_sd`, so
`peak_low_sd` indexes the unrestricted SD series `low_sd` at the position
found in the restricted mean (pandas label-based lookup; labels of the
full series coincide with positions). -/
def peakStancePairLowVariant (grid : List ℚ) (c : ConditionAvg) : Option (ℚ × ℚ) :=
  let m := maskBelow grid c.torqueMean 70
  match npMaxQ m with
  | none => none
  | some pk => (c.torqueSd.get? (firstIdxEq m pk)).map (fun sv => (pk, sv))

/-- `compute_peak_torque_across_conditions` (results.py lines 22-96):
build `percent_gait` from the transparent GRFz mean length and compute the
(peak mean, co-located SD) pair for the four conditions. -/
def compute_peak_torque_across_conditions (d : ConditionsAvg) :
    Option ((ℚ × ℚ) × (ℚ × ℚ) × (ℚ × ℚ) × (ℚ × ℚ)) :=
  let grid := linspace 0 100 d.grfzMeanTrans.length
  match peakStancePair grid d.trans, peakStancePairLowVariant grid d.low,
        peakStancePair grid d.med, peakStancePair grid d.high with
  | some a, some b, some c, some e => some (a, b, c, e)
  | _, _, _, _ => none

/-- The claim's reading of one condition result `r`: `r.1` is the maximum
of the mean trajectory restricted to grid points strictly below 70, and
`r.2` is the restricted SD trajectory at the first index where the
restricted mean attains that maximum. -/
def IsClaimedPeakPair (grid mn sd : List ℚ) (r : ℚ × ℚ) : Prop :=
  r.1 ∈ maskBelow grid mn 70 ∧
  (∀ y ∈ maskBelow grid mn 70, y ≤ r.1) ∧
  ∃ i, i < (maskBelow grid mn 70).length ∧
    (maskBelow grid mn 70).getD i 0 = r.1 ∧
    (∀ j, j < i → (maskBelow grid mn 70).getD j 0 ≠ r.1) ∧
    (maskBelow grid sd 70).get? i = some r.2

/-- Accumulator loop of `compute_maximum_torque_all_trials` (results.py
lines 119-133): fold the per-trial maxima of the filtered torque signals
over the comparison `if trial_peak_torque > peak_torque`. -/
def maximum_torque_go : List (List ℚ) → ℚ → Option ℚ
  | [], acc => some acc
  | t :: rest, acc =>
    match npMaxQ t with
    | none => none
    | some m => maximum_torque_go rest (if acc < m then m else acc)

/-- `compute_maximum_torque_all_trials` (results.py lines 100-135): the
trials are the filtered joint-torque signals; the accumulator starts at
`0`. -/
def compute_maximum_torque_all_trials (trials : List (List ℚ)) : Option ℚ :=
  maximum_torque_go trials 0

/-- The cable-force conversion of `compute_outcomes` (results.py lines
383-384): `max_force = max_torque / 0.055`. -/
def max_cable_force (trials : List (List ℚ)) : Option ℚ :=
  (compute_maximum_torque_all_trials trials).map (fun t => t / (11 / 200))

/-- `zero_grf` (treadmill.py lines 17-36): subtract the minimum value from
every sample (`np.min` raises on an empty array, modelled by `none`). -/
def zero_grf (grf : List ℚ) : Option (List ℚ) :=
  (npMinQ grf).map (fun m => grf.map (fun x => x - m))

/-- The synthetic three-stride matrix of the specification's aggregation
test, stored as its list of columns. -/
def exampleStrides : List (List ℚ) := [[1, 2, 3], [3, 2, 1], [2, 2, 2]]

/-- A concrete trial with strides of lengths 200, 950 and 1500, the input
lengths named by the shape-invariant test of the specification. -/
def exampleTrialStrides : List (String × List (List ℚ)) :=
  [("Joint Torque (Nm)",
    [List.replicate 200 (1 : ℚ), List.replicate 950 2, List.replicate 1500 3])]

/-- A concrete one-signal trial average, first trial of a condition. -/
def exampleTrial0 : List (String × SigAvg) :=
  [("Joint Torque (Nm)", ⟨[1, 3], [2, 4]⟩)]

/-- A concrete one-signal trial average, second trial of a condition. -/
def exampleTrial1 : List (String × SigAvg) :=
  [("Joint Torque (Nm)", ⟨[3, 5], [4, 6]⟩)]

/-- A concrete single-sample condition-average data set. -/
def exampleConditions : ConditionsAvg :=
  ⟨[0], ⟨[5], [1]⟩, ⟨[6], [2]⟩, ⟨[7], [3]⟩, ⟨[8], [4]⟩⟩

/-! ### Helper lemmas -/

/-- Subtracting a constant commutes with a running minimum. -/
theorem foldl_min_map_sub (xs : List ℚ) : ∀ (x m : ℚ),
    (xs.map (fun y => y - m)).foldl min (x - m) = xs.foldl min x - m := by
  induction xs with
  | nil => intro x m; rfl
  | cons y ys ih =>
    intro x m
    simp only [List.map_cons, List.foldl_cons]
    rw [min_sub_sub_right, ih]

/-- The fold computing `np.max` returns a member of the list. -/
theorem foldl_max_mem (xs : List ℚ) : ∀ (x : ℚ), xs.foldl max x ∈ x :: xs := by
  induction xs with
  | nil => intro x; simp
  | cons y ys ih =>
    intro x
    have hmem := ih (max x y)
    simp only [List.foldl_cons]
    rcases List.mem_cons.mp hmem with h | h
    · rw [h]
      rcases max_choice x y with hc | hc <;> rw [hc] <;> simp
    · exact List.mem_cons_of_mem _ (List.mem_cons_of_mem _ h)

/-- The fold computing `np.max` bounds every element below or in the list. -/
theorem le_foldl_max (xs : List ℚ) : ∀ (x y : ℚ), (y ≤ x ∨ y ∈ xs) →
    y ≤ xs.foldl max x := by
  induction xs with
  | nil => intro x y h; simpa using h
  | cons z zs ih =>
    intro x y h
    simp only [List.foldl_cons]
    rcases h with h | h
    · exact ih (max x z) y (Or.inl (le_trans h (le_max_left x z)))
    · rcases List.mem_cons.mp h with h | h
      · exact ih (max x z) y (Or.inl (h ▸ le_max_right x z))
      · exact ih (max x z) y (Or.inr h)

/-- `chopSegments` emits one segment per heel-strike index. -/
theorem chopSegments_length (s : List ℚ) : ∀ (l : List ℕ) (a : ℕ),
    (chopSegments s a l).length = l.length := by
  intro l
  induction l with
  | nil => intro a; rfl
  | cons i rest ih => intro a; simp [chopSegments, ih]

/-- Segment `k` of `chopSegments` runs from the previous index to index `k`. -/
theorem chopSegments_get (s : List ℚ) : ∀ (l : List ℕ) (a : ℕ) (k : ℕ),
    k < l.length →
    (chopSegments s a l).get? k =
      some (pySlice s (if k = 0 then a else l.getD (k - 1) 0) (l.getD k 0)) := by
  intro l
  induction l with
  | nil => intro a k hk; exact absurd hk (by simp)
  | cons i rest ih =>
    intro a k hk
    match k with
    | 0 => simp [chopSegments]
    | Nat.succ k =>
      have hk2 : k < rest.length := by simpa using hk
      simp only [chopSegments, List.get?_cons_succ]
      rw [ih i k hk2]
      match k with
      | 0 => simp
      | Nat.succ k => simp

/-- A strictly sorted list is bounded by its last element. -/
theorem pairwise_lt_le_getLast : ∀ (l : List ℕ), l.Pairwise (· < ·) →
    ∀ (h : l ≠ []) (x : ℕ), x ∈ l → x ≤ l.getLast h := by
  intro l
  induction l with
  | nil => intro _ h; exact absurd rfl h
  | cons a t ih =>
    intro hp h x hx
    rcases List.mem_cons.mp hx with rfl | hx
    · match t, ih with
      | [], _ => simp [List.getLast]
      | b :: t2, ih =>
        have hab : x < (b :: t2).getLast (by simp) := by
          have hmem := List.getLast_mem (l := b :: t2) (by simp)
          exact (List.pairwise_cons.mp hp).1 _ hmem
        rw [List.getLast_cons (by simp)]
        exact le_of_lt hab
    · have ht : t ≠ [] := List.ne_nil_of_mem hx
      rw [List.getLast_cons ht]
      exact ih (List.pairwise_cons.mp hp).2 ht x hx

/-- In a strictly sorted list, every element before the last is smaller
than the last. -/
theorem pairwise_lt_dropLast_lt (l : List ℕ) (hp : l.Pairwise (· < ·))
    (h : l ≠ []) (x : ℕ) (hx : x ∈ l.dropLast) : x < l.getLast h := by
  obtain ⟨j, hj, rfl⟩ := List.mem_iff_getElem.mp hx
  rw [List.getElem_dropLast]
  rw [List.getLast_eq_getElem]
  have hjl : j < l.length - 1 := by simpa using hj
  have hlen : l.length - 1 < l.length :=
    Nat.sub_lt (List.length_pos.mpr h) Nat.one_pos
  exact List.pairwise_iff_get.mp hp ⟨j, by omega⟩ ⟨l.length - 1, hlen⟩ hjl

/-- The zero-sample indices are strictly increasing. -/
theorem heel_strike_candidates_pairwise (phase : List ℚ) :
    (heel_strike_candidates phase).Pairwise (· < ·) :=
  List.Pairwise.sublist (List.filter_sublist _) (List.pairwise_lt_range _)

/-- Every zero-sample index is a valid index into the phase signal. -/
theorem heel_strike_candidates_lt (phase : List ℚ) (x : ℕ)
    (hx : x ∈ heel_strike_candidates phase) : x < phase.length := by
  have := (List.mem_filter.mp hx).1
  exact List.mem_range.mp this

/-- A signal with no zero samples has no heel-strike candidates. -/
theorem heel_strike_candidates_nil (phase : List ℚ)
    (h : ∀ x ∈ phase, x ≠ 0) : heel_strike_candidates phase = [] := by
  unfold heel_strike_candidates
  rw [List.filter_eq_nil_iff]
  intro i hi
  have hlt : i < phase.length := List.mem_range.mp hi
  have hmem : phase.getD i 1 ∈ phase := by
    rw [List.getD_eq_getElem _ _ hlt]
    exact List.getElem_mem hlt
  intro hc
  exact h _ hmem (of_decide_eq_true hc)

/-! ### Claim theorems -/

/-- C10: for every non-empty ground-reaction-force array, `zero_grf`
returns an array of the same length equal to the input minus its minimum
value element-wise, the minimum of the result is exactly zero, and every
pairwise difference between samples is preserved. -/
theorem claim_C10 (g : List ℚ) (hg : g ≠ []) :
    ∃ out m, zero_grf g = some out ∧ npMinQ g = some m ∧
      out.length = g.length ∧
      out = g.map (fun x => x - m) ∧
      npMinQ out = some 0 ∧
      ∀ i j (hi : i < out.length) (hj : j < out.length)
        (hi2 : i < g.length) (hj2 : j < g.length),
        out.get ⟨i, hi⟩ - out.get ⟨j, hj⟩ = g.get ⟨i, hi2⟩ - g.get ⟨j, hj2⟩ := by
  obtain ⟨x, xs, rfl⟩ := List.exists_cons_of_ne_nil hg
  refine ⟨_, xs.foldl min x, rfl, rfl, by simp [zero_grf, npMinQ], rfl, ?_, ?_⟩
  · show npMinQ ((x :: xs).map (fun y => y - xs.foldl min x)) = some 0
    simp only [List.map_cons, npMinQ]
    rw [foldl_min_map_sub]
    simp
  · intro i j hi hj hi2 hj2
    show ((x :: xs).map (fun y => y - xs.foldl min x)).get ⟨i, hi⟩ -
        ((x :: xs).map (fun y => y - xs.foldl min x)).get ⟨j, hj⟩ = _
    simp only [List.get_eq_getElem, List.getElem_map]
    ring

/-- C10 witness: `claim_C10` applied to the concrete array `[3, 1, 2]`. -/
theorem claim_C10_witness :
    ∃ out m, zero_grf [3, 1, 2] = some out ∧ npMinQ [3, 1, 2] = some m ∧
      out.length = ([3, 1, 2] : List ℚ).length ∧
      out = ([3, 1, 2] : List ℚ).map (fun x => x - m) ∧
      npMinQ out = some 0 ∧
      ∀ i j (hi : i < out.length) (hj : j < out.length)
        (hi2 : i < ([3, 1, 2] : List ℚ).length)
        (hj2 : j < ([3, 1, 2] : List ℚ).length),
        out.get ⟨i, hi⟩ - out.get ⟨j, hj⟩ =
          ([3, 1, 2] : List ℚ).get ⟨i, hi2⟩ - ([3, 1, 2] : List ℚ).get ⟨j, hj2⟩ :=
  claim_C10 [3, 1, 2] (by decide)

/-- The accumulator loop of `compute_maximum_torque_all_trials` folds
`max` over the per-trial maxima, as long as every trial is non-empty. -/
theorem maximum_torque_go_eq : ∀ (ts : List (List ℚ)) (acc : ℚ),
    (∀ t ∈ ts, t ≠ []) →
    maximum_torque_go ts acc = some ((ts.filterMap npMaxQ).foldl max acc) := by
  intro ts
  induction ts with
  | nil => intro acc _; rfl
  | cons t rest ih =>
    intro acc h
    obtain ⟨y, ys, rfl⟩ :=
      List.exists_cons_of_ne_nil (h t (List.mem_cons_self _ _))
    have hrest : ∀ u ∈ rest, u ≠ [] := fun u hu => h u (List.mem_cons_of_mem _ hu)
    simp only [maximum_torque_go, npMaxQ, List.filterMap_cons]
    rw [ih _ hrest]
    congr 1
    simp only [List.foldl_cons]
    congr 1
    rcases le_or_lt (ys.foldl max y) acc with hle | hlt
    · rw [if_neg (not_lt.mpr hle), max_eq_left hle]
    · rw [if_pos hlt, max_eq_right (le_of_lt hlt)]

/-- C9 counterexample: on a data set whose only trial has the all-negative
torque signal `[-1]`, the code returns its initial accumulator `0`, while
the highest value of the per-trial maximum samples is `-1`.  The claim as
stated is therefore false on the code. -/
theorem claim_C9_counterexample :
    compute_maximum_torque_all_trials [[-1]] = some 0 ∧
    npMaxQ [-1] = some (-1) ∧ (0 : ℚ) ≠ -1 := by
  refine ⟨rfl, rfl, by norm_num⟩

/-- C9 amended: provided every trial is non-empty,
`compute_maximum_torque_all_trials` returns the maximum of `0` and the
highest per-trial maximum sample (which equals the highest per-trial
maximum whenever some sample is nonnegative), and the reported cable force
is that value divided by 0.055 = 11/200. -/
theorem claim_C9_amended (trials : List (List ℚ)) (h : ∀ t ∈ trials, t ≠ []) :
    compute_maximum_torque_all_trials trials =
      some ((trials.filterMap npMaxQ).foldl max 0) ∧
    max_cable_force trials =
      some ((trials.filterMap npMaxQ).foldl max 0 / (11 / 200)) := by
  have hgo := maximum_torque_go_eq trials 0 h
  refine ⟨hgo, ?_⟩
  unfold max_cable_force
  rw [show compute_maximum_torque_all_trials trials =
    some ((trials.filterMap npMaxQ).foldl max 0) from hgo]
  rfl

/-- C9 witness: `claim_C9_amended` on the trials `[[1, 3], [2]]`. -/
theorem claim_C9_amended_witness :
    compute_maximum_torque_all_trials [[1, 3], [2]] =
      some ((([[1, 3], [2]] : List (List ℚ)).filterMap npMaxQ).foldl max 0) ∧
    max_cable_force [[1, 3], [2]] =
      some ((([[1, 3], [2]] : List (List ℚ)).filterMap npMaxQ).foldl max 0 /
        (11 / 200)) :=
  claim_C9_amended [[1, 3], [2]] (by decide)

/-- C5 counterexample: on the phase signal `[1, 1, 1]`, which contains no
zero sample, heel-strike detection does not return an empty set: it fails
(`heel_strike_indices[-1]` raises `IndexError` on the empty index array),
and so does `trial_strides`.  The claim as stated is therefore false on the
code. -/
theorem claim_C5_counterexample :
    heel_strike_indices [1, 1, 1] = none ∧
    trial_strides [1, 1, 1] [("GRFz (N)", [5, 6, 7])] = none := by
  exact ⟨rfl, rfl⟩

/-- C5 amended: for every phase signal containing no zero samples, event
detection raises (modelled by `none`) instead of returning an empty
heel-strike set, and `trial_strides` propagates the error instead of
reporting zero strides. -/
theorem claim_C5_amended (phase : List ℚ) (trial : List (String × List ℚ))
    (h : ∀ x ∈ phase, x ≠ 0) :
    heel_strike_indices phase = none ∧ trial_strides phase trial = none := by
  have hc : heel_strike_candidates phase = [] := heel_strike_candidates_nil phase h
  have hidx : heel_strike_indices phase = none := by
    unfold heel_strike_indices
    rw [hc]
    rfl
  refine ⟨hidx, ?_⟩
  unfold trial_strides
  rw [hidx]

/-- C5 witness: `claim_C5_amended` on the zero-free phase `[1, 1, 1]`. -/
theorem claim_C5_amended_witness :
    heel_strike_indices [1, 1, 1] = none ∧
    trial_strides [1, 1, 1] [("a", [5, 6])] = none :=
  claim_C5_amended [1, 1, 1] [("a", [5, 6])] (by decide)

/-- C6: for a heel-strike set with `N ≥ 1` indices, `get_stride_list`
returns exactly `N - 1` strides, and stride `k` is the contiguous slice
`signal[hs[k] : hs[k+1]]`; the segment before the first heel strike is
discarded. -/
theorem claim_C6 (signal : List ℚ) (hs : List ℕ) (h : 1 ≤ hs.length) :
    ∃ strides, get_stride_list signal hs = some strides ∧
      strides.length = hs.length - 1 ∧
      ∀ k, k + 1 < hs.length →
        strides.get? k = some (pySlice signal (hs.getD k 0) (hs.getD (k + 1) 0)) := by
  have hne : hs ≠ [] := by
    intro e
    rw [e] at h
    simp at h
  obtain ⟨i, rest, rfl⟩ := List.exists_cons_of_ne_nil hne
  refine ⟨chopSegments signal i rest, ?_, ?_, ?_⟩
  · rfl
  · simp [chopSegments_length]
  · intro k hk
    have hk2 : k < rest.length := by simpa using hk
    rw [chopSegments_get signal rest i k hk2]
    match k with
    | 0 => simp
    | Nat.succ k => simp

/-- C6 witness: `claim_C6` on `signal = [10, 20, 30, 40, 50]` and the
two-element heel-strike set `[1, 3]`. -/
theorem claim_C6_witness :
    ∃ strides, get_stride_list [10, 20, 30, 40, 50] [1, 3] = some strides ∧
      strides.length = ([1, 3] : List ℕ).length - 1 ∧
      ∀ k, k + 1 < ([1, 3] : List ℕ).length →
        strides.get? k = some (pySlice [10, 20, 30, 40, 50]
          (([1, 3] : List ℕ).getD k 0) (([1, 3] : List ℕ).getD (k + 1) 0)) :=
  claim_C6 [10, 20, 30, 40, 50] [1, 3] (by decide)

/-- C4 counterexample: on the phase signal `[0, 1, 0, 1]` the detector
produces the heel-strike set `[0, 2]`, which contains index `0`.  The
claim that index 0 never occurs is therefore false on the code. -/
theorem claim_C4_counterexample :
    heel_strike_indices [0, 1, 0, 1] = some [0, 2] ∧ 0 ∈ [0, 2] := by
  exact ⟨rfl, by decide⟩

/-- C4 amended: every heel-strike set produced by the phase-based detector
is strictly increasing and never contains the final sample index of the
signal; index 0, however, can occur (it is not filtered). -/
theorem claim_C4_amended (phase : List ℚ) (hs : List ℕ)
    (h : heel_strike_indices phase = some hs) :
    hs.Pairwise (· < ·) ∧ (phase.length - 1) ∉ hs := by
  have h2 : (match (heel_strike_candidates phase).getLast? with
      | none => none
      | some lastIdx => some (if lastIdx = phase.length - 1 then
          (heel_strike_candidates phase).dropLast
        else heel_strike_candidates phase)) = some hs := h
  clear h
  rcases hlast : (heel_strike_candidates phase).getLast? with _ | lastIdx
  · rw [hlast] at h2
    exact absurd h2 (by simp)
  · rw [hlast] at h2
    simp only [Option.some.injEq] at h2
    have hne : heel_strike_candidates phase ≠ [] := by
      intro e
      rw [e] at hlast
      exact absurd hlast (by simp)
    have hgl : (heel_strike_candidates phase).getLast hne = lastIdx := by
      rw [List.getLast?_eq_getLast _ hne] at hlast
      exact Option.some.inj hlast
    have hpw := heel_strike_candidates_pairwise phase
    by_cases hcase : lastIdx = phase.length - 1
    · rw [if_pos hcase] at h2
      subst h2
      refine ⟨List.Pairwise.sublist (List.dropLast_sublist _) hpw, ?_⟩
      intro hmem
      have := pairwise_lt_dropLast_lt _ hpw hne _ hmem
      rw [hgl, hcase] at this
      exact lt_irrefl _ this
    · rw [if_neg hcase] at h2
      subst h2
      refine ⟨hpw, ?_⟩
      intro hmem
      have hle : phase.length - 1 ≤ lastIdx := by
        have := pairwise_lt_le_getLast _ hpw hne _ hmem
        rwa [hgl] at this
      have hlt : lastIdx < phase.length := by
        apply heel_strike_candidates_lt
        have := List.getLast_mem hne
        rwa [hgl] at this
      exact hcase (by omega)

/-- C4 witness: `claim_C4_amended` on the phase `[1, 0, 1]`, whose produced
heel-strike set is `[1]`. -/
theorem claim_C4_amended_witness :
    ([1] : List ℕ).Pairwise (· < ·) ∧
      (([1, 0, 1] : List ℚ).length - 1) ∉ ([1] : List ℕ) :=
  claim_C4_amended [1, 0, 1] [1] (by rfl)

/-- Interpolating at the left node returns the left value. -/
theorem interpGo_self (p : ℚ × ℚ) (tl : List (ℚ × ℚ)) :
    interpGo p tl p.1 = p.2 := by
  cases tl with
  | nil => rfl
  | cons q rest => simp [interpGo]

/-- Interpolating at any node of the tail returns that node's value, for
strictly increasing sample points. -/
theorem interpGo_node : ∀ (tl : List (ℚ × ℚ)) (p : ℚ × ℚ),
    (p :: tl).Pairwise (fun a b => a.1 < b.1) →
    ∀ (j : ℕ) (hj : j < tl.length),
    interpGo p tl (tl.get ⟨j, hj⟩).1 = (tl.get ⟨j, hj⟩).2 := by
  intro tl
  induction tl with
  | nil => intro p _ j hj; exact absurd hj (by simp)
  | cons q rest ih =>
    intro p hp j hj
    have hpq : p.1 < q.1 :=
      (List.pairwise_cons.mp hp).1 q (List.mem_cons_self _ _)
    have hptail : (q :: rest).Pairwise (fun a b => a.1 < b.1) :=
      (List.pairwise_cons.mp hp).2
    match j, hj with
    | 0, hj =>
      show interpGo p (q :: rest) q.1 = q.2
      unfold interpGo
      rw [if_neg (not_le.mpr hpq), if_pos le_rfl]
      have hne : q.1 - p.1 ≠ 0 := sub_ne_zero_of_ne (ne_of_gt hpq)
      rw [mul_div_cancel_right₀ _ hne]
      ring
    | Nat.succ k, hj =>
      have hk : k < rest.length := by simpa using hj
      have hcons : ((q :: rest).get ⟨k + 1, hj⟩) = rest.get ⟨k, hk⟩ := rfl
      have hmem : rest.get ⟨k, hk⟩ ∈ q :: rest :=
        List.mem_cons_of_mem _ (List.get_mem _ _ hk)
      have hx1 : p.1 < (rest.get ⟨k, hk⟩).1 :=
        (List.pairwise_cons.mp hp).1 _ hmem
      have hx2 : q.1 < (rest.get ⟨k, hk⟩).1 :=
        (List.pairwise_cons.mp hptail).1 _ (List.get_mem _ _ hk)
      rw [hcons]
      show interpGo p (q :: rest) (rest.get ⟨k, hk⟩).1 = (rest.get ⟨k, hk⟩).2
      unfold interpGo
      rw [if_neg (not_le.mpr hx1), if_neg (not_le.mpr hx2)]
      exact ih q hptail k hk

/-- `np.interp` evaluated at the `j`-th sample point returns the `j`-th
value, for strictly increasing sample points. -/
theorem interpPairs_node (l : List (ℚ × ℚ))
    (hl : l.Pairwise (fun a b => a.1 < b.1)) (j : ℕ) (hj : j < l.length) :
    interpPairs l (l.get ⟨j, hj⟩).1 = (l.get ⟨j, hj⟩).2 := by
  match l, hj with
  | p :: tl, hj =>
    match j, hj with
    | 0, hj =>
      show interpGo p tl p.1 = p.2
      exact interpGo_self p tl
    | Nat.succ k, hj =>
      have hk : k < tl.length := by simpa using hj
      show interpGo p tl (tl.get ⟨k, hk⟩).1 = (tl.get ⟨k, hk⟩).2
      exact interpGo_node tl p hl k hk

/-- The length of `np.linspace a b n` is `n`. -/
theorem linspace_length (a b : ℚ) (n : ℕ) : (linspace a b n).length = n := by
  unfold linspace
  rw [List.length_map, List.length_range]

/-- Element `j` of `np.linspace a b n`. -/
theorem linspace_getElem (a b : ℚ) (n j : ℕ) (h : j < (linspace a b n).length) :
    (linspace a b n)[j] = a + (b - a) * j / ((n : ℚ) - 1) := by
  have hj : j < n := lt_of_lt_of_eq h (linspace_length a b n)
  unfold linspace
  rw [List.getElem_map, List.getElem_range]

/-- `np.linspace a b n` is strictly increasing when `a < b`. -/
theorem linspace_pairwise (a b : ℚ) (hab : a < b) (n : ℕ) :
    (linspace a b n).Pairwise (· < ·) := by
  rw [List.pairwise_iff_get]
  intro i j hij
  have hjn : (j : ℕ) < n := lt_of_lt_of_eq j.isLt (linspace_length a b n)
  have hij2 : (i : ℕ) < (j : ℕ) := hij
  simp only [List.get_eq_getElem]
  rw [linspace_getElem, linspace_getElem]
  have h2n : 2 ≤ n := by omega
  have hden : (0 : ℚ) < (n : ℚ) - 1 := by
    have h2q : (2 : ℚ) ≤ (n : ℚ) := by exact_mod_cast h2n
    linarith
  have hcast : ((i : ℕ) : ℚ) < ((j : ℕ) : ℚ) := by exact_mod_cast hij2
  have hba : (0 : ℚ) < b - a := sub_pos.mpr hab
  apply add_lt_add_left
  exact (div_lt_div_right hden).mpr (mul_lt_mul_of_pos_left hcast hba)

/-- Zipping with a strictly increasing first list gives pairs with
strictly increasing first components. -/
theorem zip_pairwise_fst (xs ys : List ℚ) (h : xs.Pairwise (· < ·)) :
    (xs.zip ys).Pairwise (fun a b => a.1 < b.1) := by
  rw [List.pairwise_iff_get] at h ⊢
  intro i j hij
  have hlen : (xs.zip ys).length ≤ xs.length := by
    rw [List.length_zip]
    exact min_le_left _ _
  have hi : (i : ℕ) < xs.length := lt_of_lt_of_le i.isLt hlen
  have hj : (j : ℕ) < xs.length := lt_of_lt_of_le j.isLt hlen
  simp only [List.get_eq_getElem] at h ⊢
  rw [List.getElem_zip, List.getElem_zip]
  exact h ⟨i, hi⟩ ⟨j, hj⟩ hij

/-- C7: normalizing a stride whose length is already the canonical length
500 is the identity (exactly, in the rational model — hence within
floating-point tolerance in the float implementation). -/
theorem claim_C7 (stride : List ℚ) (h : stride.length = 500) :
    normalize_stride stride = some stride := by
  have hne : ¬ stride.isEmpty = true := by
    rw [List.isEmpty_iff]
    intro e
    rw [e] at h
    simp at h
  have hlen : ((linspace 0 100 500).zip stride).length = 500 := by
    rw [List.length_zip, linspace_length, h, min_self]
  have hpw : ((linspace 0 100 500).zip stride).Pairwise (fun a b => a.1 < b.1) :=
    zip_pairwise_fst _ _ (linspace_pairwise 0 100 (by norm_num) 500)
  have hmap : (linspace 0 100 500).map
      (fun x => npInterp x (linspace 0 100 500) stride) = stride := by
    apply List.ext_getElem
    · rw [List.length_map, linspace_length, h]
    · intro n h1 h2
      rw [List.getElem_map]
      have hn : n < 500 := by rwa [List.length_map, linspace_length] at h1
      have hzn : n < ((linspace 0 100 500).zip stride).length := by
        rw [hlen]
        exact hn
      have hnode := interpPairs_node _ hpw n hzn
      simp only [List.get_eq_getElem, List.getElem_zip] at hnode
      unfold npInterp
      exact hnode
  unfold normalize_stride
  rw [if_neg hne, h, hmap]

/-- C7 witness: `claim_C7` on the constant stride of length exactly 500. -/
theorem claim_C7_witness :
    normalize_stride (List.replicate 500 (0 : ℚ)) =
      some (List.replicate 500 (0 : ℚ)) :=
  claim_C7 (List.replicate 500 0) (by rw [List.length_replicate])

/-- A non-empty stride normalizes to the interpolation of its values on
the uniform 500-point grid. -/
theorem normalize_stride_some (s : List ℚ) (h : s ≠ []) :
    normalize_stride s = some ((linspace 0 100 500).map
      (fun x => npInterp x (linspace 0 100 s.length) s)) := by
  unfold normalize_stride
  rw [if_neg (by simpa [List.isEmpty_iff] using h)]

/-- The inner loop of `normalize_trial_strides` succeeds on a list of
non-empty strides and maps each one through the grid interpolation. -/
theorem normalize_stride_list_eq : ∀ (ss : List (List ℚ)),
    (∀ s ∈ ss, s ≠ []) →
    normalize_stride_list ss = some (ss.map (fun s => (linspace 0 100 500).map
      (fun x => npInterp x (linspace 0 100 s.length) s))) := by
  intro ss
  induction ss with
  | nil => intro _; rfl
  | cons s rest ih =>
    intro h
    simp only [normalize_stride_list, List.map_cons]
    rw [normalize_stride_some s (h s (List.mem_cons_self _ _)),
      ih (fun u hu => h u (List.mem_cons_of_mem _ hu))]

/-- C1: for every trial whose strides all have length at least 1,
`normalize_trial_strides` succeeds, keeps one entry per signal, maps each
stride to a vector of exactly 500 samples, and each output vector is the
linear interpolation of the stride's values, laid on the uniform 0-100
grid of the stride's own length, at the 500 points of the uniform 0-100
grid. -/
theorem claim_C1 : ∀ (strides : List (String × List (List ℚ))),
    (∀ p ∈ strides, ∀ s ∈ p.2, s ≠ []) →
    ∃ out, normalize_trial_strides strides = some out ∧
      out.length = strides.length ∧
      (∀ q ∈ out, ∀ ns ∈ q.2, ns.length = 500) ∧
      ∀ k, out.get? k = (strides.get? k).map
        (fun p => (p.1, p.2.map (fun s =>
          (linspace 0 100 500).map
            (fun x => npInterp x (linspace 0 100 s.length) s)))) := by
  intro strides
  induction strides with
  | nil =>
    intro _
    exact ⟨[], rfl, rfl, by simp, fun k => by simp⟩
  | cons p rest ih =>
    intro h
    obtain ⟨orest, ho, hlen, h500, hget⟩ :=
      ih (fun q hq s hsm => h q (List.mem_cons_of_mem _ hq) s hsm)
    rcases p with ⟨nm, ss⟩
    have hss : ∀ s ∈ ss, s ≠ [] :=
      fun s hs => h (nm, ss) (List.mem_cons_self _ _) s hs
    refine ⟨(nm, ss.map (fun s => (linspace 0 100 500).map
        (fun x => npInterp x (linspace 0 100 s.length) s))) :: orest,
      ?_, ?_, ?_, ?_⟩
    · simp only [normalize_trial_strides]
      rw [normalize_stride_list_eq ss hss, ho]
    · simp [hlen]
    · intro q hq ns hns
      rcases List.mem_cons.mp hq with rfl | hq2
      · obtain ⟨s, _, rfl⟩ := List.mem_map.mp hns
        rw [List.length_map, linspace_length]
      · exact h500 q hq2 ns hns
    · intro k
      match k with
      | 0 => rfl
      | Nat.succ k => simpa using hget k

/-- C1 witness: `claim_C1` on a trial with strides of lengths 200, 950
and 1500. -/
theorem claim_C1_witness :
    (∀ p ∈ exampleTrialStrides, ∀ s ∈ p.2, s ≠ []) ∧
    ∃ out, normalize_trial_strides exampleTrialStrides = some out ∧
      out.length = exampleTrialStrides.length ∧
      (∀ q ∈ out, ∀ ns ∈ q.2, ns.length = 500) ∧
      ∀ k, out.get? k = (exampleTrialStrides.get? k).map
        (fun p => (p.1, p.2.map (fun s =>
          (linspace 0 100 500).map
            (fun x => npInterp x (linspace 0 100 s.length) s)))) :=
  ⟨by decide, claim_C1 exampleTrialStrides (by decide)⟩

/-- A row of the stride matrix has one entry per stride column. -/
theorem strideRow_length (cols : List (List ℚ)) (i : ℕ) :
    (strideRow cols i).length = cols.length := by
  simp [strideRow]

/-- Element `i` of the mean trajectory is the row sum divided by the
number of strides `N`. -/
theorem meanTrajectory_getD (cols : List (List ℚ)) (i : ℕ)
    (hi : i < numRows cols) :
    (meanTrajectory cols).getD i 0 = (strideRow cols i).sum / (cols.length : ℚ) := by
  have hlen : i < (meanTrajectory cols).length := by
    unfold meanTrajectory
    rw [List.length_map, List.length_range]
    exact hi
  rw [List.getD_eq_getElem _ _ hlen]
  unfold meanTrajectory
  rw [List.getElem_map, List.getElem_range]
  unfold npMean
  rw [strideRow_length]

/-- Element `i` of the SD trajectory is the square root of the mean
squared deviation of row `i`, with divisor `N` (population SD). -/
theorem sdTrajectory_getD (cols : List (List ℚ)) (i : ℕ)
    (hi : i < numRows cols) :
    (sdTrajectory cols).getD i 0 = Real.sqrt ((((strideRow cols i).map
      (fun x => (x - (strideRow cols i).sum / (cols.length : ℚ)) ^ 2)).sum /
        (cols.length : ℚ) : ℚ)) := by
  have hv : i < (varTrajectory cols).length := by
    unfold varTrajectory
    rw [List.length_map, List.length_range]
    exact hi
  have hs : i < (sdTrajectory cols).length := by
    unfold sdTrajectory
    rw [List.length_map]
    exact hv
  rw [List.getD_eq_getElem _ _ hs]
  unfold sdTrajectory
  rw [List.getElem_map]
  congr 1
  unfold varTrajectory
  rw [List.getElem_map, List.getElem_range]
  simp only [npMean, List.length_map, strideRow_length]

/-- The population SD of the first and third row of the example matrix. -/
theorem sqrt_two_thirds_bound :
    |Real.sqrt ((((2 : ℚ)/3 : ℚ)) : ℝ) - 0.816| < 1/1000 := by
  have hc : ((((2 : ℚ)/3 : ℚ)) : ℝ) = 2/3 := by norm_num
  rw [hc]
  have h1 : Real.sqrt (2/3) < 0.817 := by
    apply (Real.sqrt_lt' (by norm_num)).mpr
    norm_num
  have h2 : (0.815 : ℝ) < Real.sqrt (2/3) := by
    apply (Real.lt_sqrt (by norm_num)).mpr
    norm_num
  rw [abs_lt]
  constructor <;> linarith

/-- C2: `trial_average_strides` computes, per phase point, the arithmetic
mean across the stride columns and the population standard deviation
(divisor `N`, not `N - 1`); on the three synthetic strides
`[1,2,3], [3,2,1], [2,2,2]` the mean trajectory is `[2,2,2]`, the variance
trajectory is `[2/3, 0, 2/3]`, and the SD trajectory is `[0.816, 0, 0.816]`
to three decimal places. -/
theorem claim_C2 (cols : List (List ℚ)) (i : ℕ) (hi : i < numRows cols) :
    (meanTrajectory cols).getD i 0 = (strideRow cols i).sum / (cols.length : ℚ) ∧
    (sdTrajectory cols).getD i 0 = Real.sqrt ((((strideRow cols i).map
      (fun x => (x - (strideRow cols i).sum / (cols.length : ℚ)) ^ 2)).sum /
        (cols.length : ℚ) : ℚ)) ∧
    meanTrajectory exampleStrides = [2, 2, 2] ∧
    varTrajectory exampleStrides = [2/3, 0, 2/3] ∧
    (sdTrajectory exampleStrides).getD 1 0 = 0 ∧
    |(sdTrajectory exampleStrides).getD 0 0 - 0.816| < 1/1000 ∧
    |(sdTrajectory exampleStrides).getD 2 0 - 0.816| < 1/1000 := by
  have hrange : List.range 3 = [0, 1, 2] := rfl
  have hmean : meanTrajectory exampleStrides = [2, 2, 2] := by
    unfold meanTrajectory numRows exampleStrides
    norm_num [hrange, strideRow, npMean]
  have hvar : varTrajectory exampleStrides = [2/3, 0, 2/3] := by
    unfold varTrajectory numRows exampleStrides
    norm_num [hrange, strideRow, npMean]
  refine ⟨meanTrajectory_getD cols i hi, sdTrajectory_getD cols i hi,
    hmean, hvar, ?_, ?_, ?_⟩
  · unfold sdTrajectory
    rw [hvar]
    simp
  · unfold sdTrajectory
    rw [hvar]
    simpa using sqrt_two_thirds_bound
  · unfold sdTrajectory
    rw [hvar]
    simpa using sqrt_two_thirds_bound

/-- C2 witness: `claim_C2` at the example matrix and row 0. -/
theorem claim_C2_witness :
    0 < numRows exampleStrides ∧
    ((meanTrajectory exampleStrides).getD 0 0 =
        (strideRow exampleStrides 0).sum / (exampleStrides.length : ℚ) ∧
      (sdTrajectory exampleStrides).getD 0 0 =
        Real.sqrt ((((strideRow exampleStrides 0).map
          (fun x => (x - (strideRow exampleStrides 0).sum /
            (exampleStrides.length : ℚ)) ^ 2)).sum /
              (exampleStrides.length : ℚ) : ℚ)) ∧
      meanTrajectory exampleStrides = [2, 2, 2] ∧
      varTrajectory exampleStrides = [2/3, 0, 2/3] ∧
      (sdTrajectory exampleStrides).getD 1 0 = 0 ∧
      |(sdTrajectory exampleStrides).getD 0 0 - 0.816| < 1/1000 ∧
      |(sdTrajectory exampleStrides).getD 2 0 - 0.816| < 1/1000) :=
  ⟨by decide, claim_C2 exampleStrides 0 (by decide)⟩

/-- `mean_signal` averages the two trajectories elementwise. -/
theorem mean_signal_getD (a b : List ℚ) (i : ℕ)
    (h1 : i < a.length) (h2 : i < b.length) :
    (mean_signal a b).getD i 0 = (a.getD i 0 + b.getD i 0) / 2 := by
  have hz : i < (mean_signal a b).length := by
    unfold mean_signal
    rw [List.length_zipWith]
    exact lt_min h1 h2
  rw [List.getD_eq_getElem _ _ hz, List.getD_eq_getElem _ _ h1,
    List.getD_eq_getElem _ _ h2]
  unfold mean_signal
  rw [List.getElem_zipWith]

/-- C3: when every signal name of trial 0 resolves in trial 1,
`merge_trials` succeeds, keeps trial 0's signals in order, and for each
signal returns the unweighted elementwise mean of the two mean
trajectories and of the two SD trajectories.  The function receives no
stride counts, so the result cannot depend on them, and no pooled
variance is recomputed. -/
theorem claim_C3 : ∀ (t0 t1 : List (String × SigAvg)),
    (∀ p ∈ t0, (List.lookup p.1 t1).isSome = true) →
    ∃ m, merge_trials t0 t1 = some m ∧ m.length = t0.length ∧
      ∀ k (hk : k < t0.length) (a1 : SigAvg),
        List.lookup (t0.get ⟨k, hk⟩).1 t1 = some a1 →
        ∃ hk2 : k < m.length,
          (m.get ⟨k, hk2⟩).1 = (t0.get ⟨k, hk⟩).1 ∧
          (∀ i, i < (t0.get ⟨k, hk⟩).2.mean.length → i < a1.mean.length →
            (m.get ⟨k, hk2⟩).2.mean.getD i 0 =
              ((t0.get ⟨k, hk⟩).2.mean.getD i 0 + a1.mean.getD i 0) / 2) ∧
          (∀ i, i < (t0.get ⟨k, hk⟩).2.sd.length → i < a1.sd.length →
            (m.get ⟨k, hk2⟩).2.sd.getD i 0 =
              ((t0.get ⟨k, hk⟩).2.sd.getD i 0 + a1.sd.getD i 0) / 2) := by
  intro t0
  induction t0 with
  | nil =>
    intro t1 _
    exact ⟨[], rfl, rfl, fun k hk => absurd hk (by simp)⟩
  | cons p rest ih =>
    intro t1 h
    have hp := h p (List.mem_cons_self _ _)
    rcases hsome : List.lookup p.1 t1 with _ | a1x
    · rw [hsome] at hp
      simp at hp
    obtain ⟨mrest, hm, hmlen, hmk⟩ :=
      ih t1 (fun q hq => h q (List.mem_cons_of_mem _ hq))
    refine ⟨(p.1, ⟨mean_signal p.2.mean a1x.mean,
      mean_signal p.2.sd a1x.sd⟩) :: mrest, ?_, ?_, ?_⟩
    · show merge_trials (p :: rest) t1 = _
      rcases p with ⟨nm, a0⟩
      simp only [merge_trials]
      rw [hsome, hm]
    · simp [hmlen]
    · intro k hk a1 hlk
      match k with
      | 0 =>
        have hget0 : ((p :: rest).get ⟨0, hk⟩) = p := rfl
        rw [hget0] at hlk
        rw [hsome] at hlk
        have ha : a1x = a1 := Option.some.inj hlk
        subst ha
        refine ⟨by simp, rfl, ?_, ?_⟩
        · intro i hi1 hi2
          exact mean_signal_getD _ _ i hi1 hi2
        · intro i hi1 hi2
          exact mean_signal_getD _ _ i hi1 hi2
      | Nat.succ k =>
        have hk2 : k < rest.length := by simpa using hk
        have hgetS : ((p :: rest).get ⟨k + 1, hk⟩) = rest.get ⟨k, hk2⟩ := rfl
        rw [hgetS] at hlk
        obtain ⟨hk3, hfst, hmean, hsd⟩ := hmk k hk2 a1 hlk
        refine ⟨Nat.succ_lt_succ hk3, ?_, ?_, ?_⟩
        · exact hfst
        · intro i hi1 hi2
          exact hmean i hi1 hi2
        · intro i hi1 hi2
          exact hsd i hi1 hi2

/-- C3 witness: `claim_C3` on the concrete pair of one-signal trial
averages `exampleTrial0` and `exampleTrial1`. -/
theorem claim_C3_witness :
    (∀ p ∈ exampleTrial0, (List.lookup p.1 exampleTrial1).isSome = true) ∧
    ∃ m, merge_trials exampleTrial0 exampleTrial1 = some m ∧
      m.length = exampleTrial0.length ∧
      ∀ k (hk : k < exampleTrial0.length) (a1 : SigAvg),
        List.lookup (exampleTrial0.get ⟨k, hk⟩).1 exampleTrial1 = some a1 →
        ∃ hk2 : k < m.length,
          (m.get ⟨k, hk2⟩).1 = (exampleTrial0.get ⟨k, hk⟩).1 ∧
          (∀ i, i < (exampleTrial0.get ⟨k, hk⟩).2.mean.length →
            i < a1.mean.length →
            (m.get ⟨k, hk2⟩).2.mean.getD i 0 =
              ((exampleTrial0.get ⟨k, hk⟩).2.mean.getD i 0 +
                a1.mean.getD i 0) / 2) ∧
          (∀ i, i < (exampleTrial0.get ⟨k, hk⟩).2.sd.length →
            i < a1.sd.length →
            (m.get ⟨k, hk2⟩).2.sd.getD i 0 =
              ((exampleTrial0.get ⟨k, hk⟩).2.sd.getD i 0 +
                a1.sd.getD i 0) / 2) :=
  ⟨by decide, claim_C3 exampleTrial0 exampleTrial1 (by decide)⟩

/-- `np.max` of a non-empty array is an upper-bounding member. -/
theorem npMaxQ_spec (l : List ℚ) (h : l ≠ []) :
    ∃ pk, npMaxQ l = some pk ∧ pk ∈ l ∧ ∀ y ∈ l, y ≤ pk := by
  obtain ⟨x, xs, rfl⟩ := List.exists_cons_of_ne_nil h
  refine ⟨xs.foldl max x, rfl, foldl_max_mem xs x, ?_⟩
  intro y hy
  rcases List.mem_cons.mp hy with rfl | hy
  · exact le_foldl_max xs y y (Or.inl le_rfl)
  · exact le_foldl_max xs x y (Or.inr hy)

/-- Masking two arrays of equal length with the same boolean mask yields
results of equal length. -/
theorem maskBelow_length_eq : ∀ (grid xs ys : List ℚ) (c : ℚ),
    xs.length = ys.length →
    (maskBelow grid xs c).length = (maskBelow grid ys c).length := by
  intro grid
  induction grid with
  | nil => intro xs ys c _; rfl
  | cons g gr ih =>
    intro xs ys c hlen
    cases xs with
    | nil =>
      cases ys with
      | nil => rfl
      | cons y yt => exact absurd hlen (by simp)
    | cons x xt =>
      cases ys with
      | nil => exact absurd hlen (by simp)
      | cons y yt =>
        have hlen2 : xt.length = yt.length := by simpa using hlen
        by_cases hgc : g < c
        · simp only [maskBelow, List.zip_cons_cons, List.filterMap_cons, if_pos hgc]
          simpa using ih xt yt c hlen2
        · simp only [maskBelow, List.zip_cons_cons, List.filterMap_cons, if_neg hgc]
          exact ih xt yt c hlen2

/-- If no grid point passes the mask, the masked array is empty. -/
theorem maskBelow_nil_of_ge : ∀ (grid xs : List ℚ) (c : ℚ),
    (∀ g ∈ grid, ¬ g < c) → maskBelow grid xs c = [] := by
  intro grid
  induction grid with
  | nil => intro xs c _; rfl
  | cons g gr ih =>
    intro xs c h
    cases xs with
    | nil => rfl
    | cons x xt =>
      have hgc : ¬ g < c := h g (List.mem_cons_self _ _)
      simp only [maskBelow, List.zip_cons_cons, List.filterMap_cons, if_neg hgc]
      exact ih xt c (fun y hy => h y (List.mem_cons_of_mem _ hy))

/-- Cons step of the boolean mask when the head grid point passes. -/
theorem maskBelow_cons_lt (g : ℚ) (gr : List ℚ) (x : ℚ) (xt : List ℚ)
    (c : ℚ) (h : g < c) :
    maskBelow (g :: gr) (x :: xt) c = x :: maskBelow gr xt c := by
  simp [maskBelow, h]

/-- Cons step of the boolean mask when the head grid point fails. -/
theorem maskBelow_cons_ge (g : ℚ) (gr : List ℚ) (x : ℚ) (xt : List ℚ)
    (c : ℚ) (h : ¬ g < c) :
    maskBelow (g :: gr) (x :: xt) c = maskBelow gr xt c := by
  simp [maskBelow, h]

/-- For a sorted grid the mask `grid < c` selects a prefix: the masked
array is an initial segment of the original array. -/
theorem maskBelow_take : ∀ (grid : List ℚ), grid.Pairwise (· ≤ ·) →
    ∀ (xs : List ℚ) (c : ℚ),
    maskBelow grid xs c = xs.take (maskBelow grid xs c).length := by
  intro grid
  induction grid with
  | nil => intro _ xs c; rfl
  | cons g gr ih =>
    intro hp xs c
    cases xs with
    | nil => rfl
    | cons x xt =>
      by_cases hgc : g < c
      · rw [maskBelow_cons_lt g gr x xt c hgc, List.length_cons,
          List.take_succ_cons]
        congr 1
        exact ih (List.pairwise_cons.mp hp).2 xt c
      · have hnil : maskBelow gr xt c = [] := by
          apply maskBelow_nil_of_ge
          intro y hy hyc
          exact hgc (lt_of_le_of_lt ((List.pairwise_cons.mp hp).1 y hy) hyc)
        rw [maskBelow_cons_ge g gr x xt c hgc, hnil]
        rfl

/-- Within the masked range, the masked array agrees with the original
array (sorted grid: the mask is a prefix mask). -/
theorem maskBelow_get_eq (grid : List ℚ) (hg : grid.Pairwise (· ≤ ·))
    (xs : List ℚ) (c : ℚ) (i : ℕ) (hi : i < (maskBelow grid xs c).length) :
    (maskBelow grid xs c).get? i = xs.get? i := by
  conv_lhs => rw [maskBelow_take grid hg xs c]
  rw [List.get?_eq_getElem?, List.get?_eq_getElem?, List.getElem?_take,
    if_pos hi]

/-- The head of `np.linspace a b (m+1)` is `a`. -/
theorem linspace_head (a b : ℚ) (m : ℕ) :
    ∃ tl, linspace a b (m + 1) = a :: tl := by
  unfold linspace
  rw [List.range_succ_eq_map, List.map_cons]
  refine ⟨List.map ((fun (j : ℕ) => a + (b - a) * (j : ℚ) /
    ((↑(m + 1) : ℚ) - 1)) ∘ Nat.succ) (List.range m), ?_⟩
  rw [List.map_map]
  congr 1
  norm_num

/-- The stance mask over the gait grid is non-empty for `n ≥ 1`: the
first grid point is `0 < 70`. -/
theorem maskBelow_linspace_ne_nil (n : ℕ) (hn : 1 ≤ n) (xs : List ℚ)
    (hx : xs.length = n) : maskBelow (linspace 0 100 n) xs 70 ≠ [] := by
  obtain ⟨m, rfl⟩ := Nat.exists_eq_add_of_le hn
  obtain ⟨tl, htl⟩ := linspace_head 0 100 m
  have hxs : xs ≠ [] := by
    intro e
    rw [e] at hx
    simp at hx
    omega
  obtain ⟨x, xt, rfl⟩ := List.exists_cons_of_ne_nil hxs
  rw [show 1 + m = m + 1 from by omega, htl,
    maskBelow_cons_lt 0 tl x xt 70 (by norm_num)]
  simp

/-- Shared argument for the four condition branches: the peak of the
restricted mean exists, and the SD value read at the first peak index is
the restricted SD at that index. -/
theorem peakStancePair_spec (grid : List ℚ) (c : ConditionAvg)
    (hlen : c.torqueMean.length = c.torqueSd.length)
    (hne : maskBelow grid c.torqueMean 70 ≠ []) :
    ∃ r, peakStancePair grid c = some r ∧
      IsClaimedPeakPair grid c.torqueMean c.torqueSd r := by
  obtain ⟨pk, hmax, hmem, hub⟩ := npMaxQ_spec _ hne
  have hidxlt : firstIdxEq (maskBelow grid c.torqueMean 70) pk <
      (maskBelow grid c.torqueMean 70).length := by
    apply List.findIdx_lt_length_of_exists
    exact ⟨pk, hmem, by simp⟩
  have hslen : (maskBelow grid c.torqueSd 70).length =
      (maskBelow grid c.torqueMean 70).length :=
    maskBelow_length_eq grid _ _ 70 hlen.symm
  have hidxs : firstIdxEq (maskBelow grid c.torqueMean 70) pk <
      (maskBelow grid c.torqueSd 70).length := by
    rw [hslen]
    exact hidxlt
  have hval : (maskBelow grid c.torqueMean 70).getD
      (firstIdxEq (maskBelow grid c.torqueMean 70) pk) 0 = pk := by
    rw [List.getD_eq_getElem _ _ hidxlt]
    exact of_decide_eq_true (@List.findIdx_getElem _ _ _ hidxlt)
  have hfirst : ∀ j, j < firstIdxEq (maskBelow grid c.torqueMean 70) pk →
      (maskBelow grid c.torqueMean 70).getD j 0 ≠ pk := by
    intro j hj
    have hjlen : j < (maskBelow grid c.torqueMean 70).length :=
      lt_trans hj hidxlt
    rw [List.getD_eq_getElem _ _ hjlen]
    exact of_decide_eq_false (List.not_of_lt_findIdx hj)
  have hsget : (maskBelow grid c.torqueSd 70).get?
      (firstIdxEq (maskBelow grid c.torqueMean 70) pk) =
      some ((maskBelow grid c.torqueSd 70).get ⟨_, hidxs⟩) := by
    rw [List.get?_eq_getElem?, List.getElem?_eq_getElem hidxs]
    rfl
  refine ⟨(pk, (maskBelow grid c.torqueSd 70).get ⟨_, hidxs⟩), ?_, ?_⟩
  · show (match npMaxQ (maskBelow grid c.torqueMean 70) with
      | none => none
      | some pk => ((maskBelow grid c.torqueSd 70).get?
          (firstIdxEq (maskBelow grid c.torqueMean 70) pk)).map
            (fun sv => (pk, sv))) = _
    rw [hmax]
    show ((maskBelow grid c.torqueSd 70).get?
        (firstIdxEq (maskBelow grid c.torqueMean 70) pk)).map
          (fun sv => (pk, sv)) = _
    rw [hsget]
    rfl
  · exact ⟨hmem, hub, firstIdxEq (maskBelow grid c.torqueMean 70) pk,
      hidxlt, hval, hfirst, hsget⟩

/-- The `low` branch: indexing the unrestricted SD series at the peak
index coincides with indexing the restricted SD, because the stance mask
selects a prefix of a sorted grid. -/
theorem peakStancePairLow_spec (grid : List ℚ) (hg : grid.Pairwise (· ≤ ·))
    (c : ConditionAvg)
    (hlen : c.torqueMean.length = c.torqueSd.length)
    (hne : maskBelow grid c.torqueMean 70 ≠ []) :
    ∃ r, peakStancePairLowVariant grid c = some r ∧
      IsClaimedPeakPair grid c.torqueMean c.torqueSd r := by
  obtain ⟨r, hr, hclaim⟩ := peakStancePair_spec grid c hlen hne
  refine ⟨r, ?_, hclaim⟩
  obtain ⟨pk, hmax, hmem, hub⟩ := npMaxQ_spec _ hne
  have hidxlt : firstIdxEq (maskBelow grid c.torqueMean 70) pk <
      (maskBelow grid c.torqueMean 70).length := by
    apply List.findIdx_lt_length_of_exists
    exact ⟨pk, hmem, by simp⟩
  have hidxs : firstIdxEq (maskBelow grid c.torqueMean 70) pk <
      (maskBelow grid c.torqueSd 70).length := by
    rw [maskBelow_length_eq grid c.torqueSd c.torqueMean 70 hlen.symm]
    exact hidxlt
  have hagree : c.torqueSd.get?
      (firstIdxEq (maskBelow grid c.torqueMean 70) pk) =
      (maskBelow grid c.torqueSd 70).get?
        (firstIdxEq (maskBelow grid c.torqueMean 70) pk) :=
    (maskBelow_get_eq grid hg c.torqueSd 70 _ hidxs).symm
  have hcode : peakStancePairLowVariant grid c =
      ((maskBelow grid c.torqueSd 70).get?
        (firstIdxEq (maskBelow grid c.torqueMean 70) pk)).map
          (fun sv => (pk, sv)) := by
    show (match npMaxQ (maskBelow grid c.torqueMean 70) with
      | none => none
      | some pk => (c.torqueSd.get?
          (firstIdxEq (maskBelow grid c.torqueMean 70) pk)).map
            (fun sv => (pk, sv))) = _
    rw [hmax]
    show (c.torqueSd.get?
        (firstIdxEq (maskBelow grid c.torqueMean 70) pk)).map
          (fun sv => (pk, sv)) = _
    rw [hagree]
  have hpair : peakStancePair grid c =
      ((maskBelow grid c.torqueSd 70).get?
        (firstIdxEq (maskBelow grid c.torqueMean 70) pk)).map
          (fun sv => (pk, sv)) := by
    show (match npMaxQ (maskBelow grid c.torqueMean 70) with
      | none => none
      | some pk => ((maskBelow grid c.torqueSd 70).get?
          (firstIdxEq (maskBelow grid c.torqueMean 70) pk)).map
            (fun sv => (pk, sv))) = _
    rw [hmax]
  rw [hcode, ← hpair]
  exact hr

/-- C8: for each of the four conditions, the reported condition-level
peak torque is the maximum of that condition's mean joint-torque
trajectory restricted to grid points strictly below 70% of the gait
cycle, and the reported spread is the restricted SD trajectory at the
first index where the restricted mean attains that maximum — including
the `low` condition, whose code indexes the unrestricted SD series but
lands on the same value because the stance mask is a prefix mask. -/
theorem claim_C8 (d : ConditionsAvg) (hn : 1 ≤ d.grfzMeanTrans.length)
    (h1 : d.trans.torqueMean.length = d.grfzMeanTrans.length)
    (h2 : d.trans.torqueSd.length = d.grfzMeanTrans.length)
    (h3 : d.low.torqueMean.length = d.grfzMeanTrans.length)
    (h4 : d.low.torqueSd.length = d.grfzMeanTrans.length)
    (h5 : d.med.torqueMean.length = d.grfzMeanTrans.length)
    (h6 : d.med.torqueSd.length = d.grfzMeanTrans.length)
    (h7 : d.high.torqueMean.length = d.grfzMeanTrans.length)
    (h8 : d.high.torqueSd.length = d.grfzMeanTrans.length) :
    ∃ rt rl rm rh,
      compute_peak_torque_across_conditions d = some (rt, rl, rm, rh) ∧
      IsClaimedPeakPair (linspace 0 100 d.grfzMeanTrans.length)
        d.trans.torqueMean d.trans.torqueSd rt ∧
      IsClaimedPeakPair (linspace 0 100 d.grfzMeanTrans.length)
        d.low.torqueMean d.low.torqueSd rl ∧
      IsClaimedPeakPair (linspace 0 100 d.grfzMeanTrans.length)
        d.med.torqueMean d.med.torqueSd rm ∧
      IsClaimedPeakPair (linspace 0 100 d.grfzMeanTrans.length)
        d.high.torqueMean d.high.torqueSd rh := by
  have hg : (linspace 0 100 d.grfzMeanTrans.length).Pairwise (· ≤ ·) :=
    (linspace_pairwise 0 100 (by norm_num) _).imp le_of_lt
  obtain ⟨rt, hrt, hct⟩ := peakStancePair_spec
    (linspace 0 100 d.grfzMeanTrans.length) d.trans (h1.trans h2.symm)
    (maskBelow_linspace_ne_nil _ hn _ h1)
  obtain ⟨rl, hrl, hcl⟩ := peakStancePairLow_spec
    (linspace 0 100 d.grfzMeanTrans.length) hg d.low (h3.trans h4.symm)
    (maskBelow_linspace_ne_nil _ hn _ h3)
  obtain ⟨rm, hrm, hcm⟩ := peakStancePair_spec
    (linspace 0 100 d.grfzMeanTrans.length) d.med (h5.trans h6.symm)
    (maskBelow_linspace_ne_nil _ hn _ h5)
  obtain ⟨rh, hrh, hch⟩ := peakStancePair_spec
    (linspace 0 100 d.grfzMeanTrans.length) d.high (h7.trans h8.symm)
    (maskBelow_linspace_ne_nil _ hn _ h7)
  refine ⟨rt, rl, rm, rh, ?_, hct, hcl, hcm, hch⟩
  show (match peakStancePair (linspace 0 100 d.grfzMeanTrans.length) d.trans,
      peakStancePairLowVariant (linspace 0 100 d.grfzMeanTrans.length) d.low,
      peakStancePair (linspace 0 100 d.grfzMeanTrans.length) d.med,
      peakStancePair (linspace 0 100 d.grfzMeanTrans.length) d.high with
    | some a, some b, some c, some e => some (a, b, c, e)
    | _, _, _, _ => none) = some (rt, rl, rm, rh)
  rw [hrt, hrl, hrm, hrh]

/-- C8 witness: `claim_C8` on a single-sample condition data set. -/
theorem claim_C8_witness :
    ∃ rt rl rm rh,
      compute_peak_torque_across_conditions exampleConditions =
        some (rt, rl, rm, rh) ∧
      IsClaimedPeakPair (linspace 0 100 exampleConditions.grfzMeanTrans.length)
        exampleConditions.trans.torqueMean exampleConditions.trans.torqueSd rt ∧
      IsClaimedPeakPair (linspace 0 100 exampleConditions.grfzMeanTrans.length)
        exampleConditions.low.torqueMean exampleConditions.low.torqueSd rl ∧
      IsClaimedPeakPair (linspace 0 100 exampleConditions.grfzMeanTrans.length)
        exampleConditions.med.torqueMean exampleConditions.med.torqueSd rm ∧
      IsClaimedPeakPair (linspace 0 100 exampleConditions.grfzMeanTrans.length)
        exampleConditions.high.torqueMean exampleConditions.high.torqueSd rh :=
  claim_C8 exampleConditions (by decide) (by decide) (by decide) (by decide)
    (by decide) (by decide) (by decide) (by decide) (by decide)
